import Mathlib

/-!
# Verification of the valorant_vod_preview pipeline

Shallow embedding of the round-locating, OCR-interpreting, agent-detecting and
formation-analysing code of the repository, together with theorems settling the
specification claims about it.

Conventions of the embedding:
* Python floats are modelled as `ℚ` where the code only compares and adds them,
  and as `ℝ` where square roots occur (`formation_analyzer.py`).
* Python strings are modelled as Lean `String`/`List Char`; the `str.replace`
  calls of the source all have single-character patterns, so they are embedded
  as character maps/filters, and `str.split(":")` as a character-level split.
* fallible Python code (`try`/`except`, `None` returns) is modelled with
  `Option`.
-/

/-- `str.split(sep)` for a single-character separator `sep`, at the level of
character lists: `"".split(":") == [""]`, `"a:b".split(":") == ["a","b"]`,
`":".split(":") == ["",""]`. -/
def splitOnChar (c : Char) : List Char → List (List Char)
  | [] => [[]]
  | x :: xs =>
    if x = c then [] :: splitOnChar c xs
    else
      match splitOnChar c xs with
      | [] => [[x]]
      | y :: ys => (x :: y) :: ys

/-- The digit-string reading done by Python `int(...)` on the strings this
program feeds it: one or more decimal digits, `none` (an exception) otherwise. -/
def pyDigits? (cs : List Char) : Option Nat :=
  if cs.isEmpty then none
  else
    cs.foldl
      (fun acc c =>
        match acc with
        | none => none
        | some n => if c.isDigit then some (10 * n + (c.toNat - 48)) else none)
      (some 0)

/-- Python `int(...)`: an optional sign followed by one or more decimal digits;
`none` models the `ValueError` that the callers catch. -/
def pyInt? (cs : List Char) : Option Int :=
  match cs with
  | '-' :: rest => (pyDigits? rest).map (fun n => -(n : Int))
  | '+' :: rest => (pyDigits? rest).map (fun n => (n : Int))
  | _ => (pyDigits? cs).map (fun n => (n : Int))

/-- The `timer_str.split(":")` / `int(parts[0]), int(parts[1])` step shared by
`ScoutingEngine.get_refinement_score` and `ScoutingEngine.is_timer_in_130s`:
`some (m, s)` when the string has exactly two `:`-separated integer parts. -/
def parse_timer_parts (t : String) : Option (Int × Int) :=
  match splitOnChar ':' t.data with
  | [p0, p1] =>
    match pyInt? p0, pyInt? p1 with
    | some m, some s => some (m, s)
    | _, _ => none
  | _ => none

/-- `ScoutingEngine.get_refinement_score` (src/scouting_engine.py:47-65).
The argument is `Option String` because the caller passes `ref_timer`, which
may be `None`; `if not timer_str` rejects both `None` and `""`. -/
def get_refinement_score (timer_str : Option String) : Int :=
  match timer_str with
  | none => -1
  | some t =>
    if t = "" then -1
    else
      match parse_timer_parts t with
      | some (m, s) => if m = 1 then (if 40 ≤ s then 100 + (40 - s) else s) else -1
      | none => -1

/-- `ScoutingEngine.is_timer_in_130s` (src/scouting_engine.py:67-77). -/
def is_timer_in_130s (timer_str : Option String) : Bool :=
  match timer_str with
  | none => false
  | some t =>
    if t = "" then false
    else
      match parse_timer_parts t with
      | some (m, s) => decide (m = 1 ∧ 30 ≤ s ∧ s ≤ 39)
      | none => false

/-- C1: the refinement score is `100 + (40 - s)` for a reading `m:s` with
`m = 1 ∧ s ≥ 40`, `s` for `m = 1 ∧ s < 40`, and `-1` for wrong minutes,
unparseable text or a missing reading; in particular `score(1,40) = 100`,
`score(1,41) = 99`, `score(1,39) = 39`, `score(1,35) = 35`, `score(2,10) = -1`
and the score of no reading is `-1`. -/
theorem get_refinement_score_spec :
    (∀ t m s, parse_timer_parts t = some (m, s) →
      ((m = 1 ∧ 40 ≤ s → get_refinement_score (some t) = 100 + (40 - s)) ∧
       (m = 1 ∧ s < 40 → get_refinement_score (some t) = s) ∧
       (m ≠ 1 → get_refinement_score (some t) = -1))) ∧
    get_refinement_score none = -1 ∧
    (∀ t, parse_timer_parts t = none → get_refinement_score (some t) = -1) ∧
    get_refinement_score (some "1:40") = 100 ∧
    get_refinement_score (some "1:41") = 99 ∧
    get_refinement_score (some "1:39") = 39 ∧
    get_refinement_score (some "1:35") = 35 ∧
    get_refinement_score (some "2:10") = -1 := by
  refine ⟨?_, rfl, ?_, by decide, by decide, by decide, by decide, by decide⟩
  · intro t m s hp
    have ht : ¬ t = "" := by
      intro h
      subst h
      simp [parse_timer_parts, splitOnChar] at hp
    refine ⟨?_, ?_, ?_⟩
    · rintro ⟨hm, hs⟩
      simp [get_refinement_score, ht, hp, hm, hs]
    · rintro ⟨hm, hs⟩
      simp [get_refinement_score, ht, hp, hm, not_le.mpr hs]
    · intro hm
      simp [get_refinement_score, ht, hp, hm]
  · intro t hp
    by_cases ht : t = ""
    · simp [get_refinement_score, ht]
    · simp [get_refinement_score, ht, hp]

/-- Witness for C1: the general clauses applied at the concrete reading `1:41`. -/
theorem get_refinement_score_spec_witness :
    parse_timer_parts "1:41" = some (1, 41) ∧
    get_refinement_score (some "1:41") = 100 + (40 - 41) :=
  ⟨by decide,
    (get_refinement_score_spec.1 "1:41" 1 41 (by decide)).1 ⟨rfl, by decide⟩⟩

/-- `text.replace(" ", "").upper().replace(".", ":")` from
`PaddleOCREngine.detect_timer_batch` (src/ocr_engine.py:106), embedded at the
character level (both patterns are single characters). -/
def normalize_ocr_token (cs : List Char) : List Char :=
  ((cs.filter (fun c => c ≠ ' ')).map Char.toUpper).map
    (fun c => if c = '.' then ':' else c)

/-- `part.replace("O", "0").replace("I", "1")` (src/ocr_engine.py:112,114);
sequential single-character replaces whose outputs are not each other's
patterns, hence a single character map. -/
def ocr_digit_fix (cs : List Char) : List Char :=
  cs.map (fun c => if c = 'O' then '0' else if c = 'I' then '1' else c)

/-- `f"{m}:{s:02d}"` for the only values it is applied to: `m = 1` and
`0 ≤ s ≤ 59`. -/
def format_timer (m s : Int) : String :=
  toString m ++ ":" ++ (if s < 10 then "0" ++ toString s else toString s)

/-- The per-token body of the timer scan in
`PaddleOCREngine.detect_timer_batch` (src/ocr_engine.py:105-120): `some str`
when the token is a valid timer reading (minutes `1`, seconds `0..59`), where
`str` is the normalized `detected_timer_str` the code would store. -/
def parse_timer_token (text : String) : Option String :=
  let cs := normalize_ocr_token text.data
  if ':' ∈ cs then
    match splitOnChar ':' cs with
    | [p0, p1] =>
      match pyInt? (ocr_digit_fix p0), pyInt? (ocr_digit_fix (p1.take 2)) with
      | some m, some s =>
        if m = 1 ∧ 0 ≤ s ∧ s ≤ 59 then some (format_timer m s) else none
      | _, _ => none
    | _ => none
  else none

/-- The fold over recognized `(text, confidence)` pairs in
`PaddleOCREngine.detect_timer_batch` (src/ocr_engine.py:104-120), producing
`(timer_found, best_conf, detected_timer_str)`. -/
def scan_timer_tokens (toks : List (String × ℚ)) : Bool × ℚ × Option String :=
  toks.foldl
    (fun st tk =>
      match parse_timer_token tk.1 with
      | some ts => (true, max st.2.1 tk.2, some ts)
      | none => st)
    (false, 0, none)

lemma getLast?_cons_eq_or {α : Type} (a : α) (l : List α) :
    (a :: l).getLast? = l.getLast?.or (some a) := by
  induction l with
  | nil => rfl
  | cons b l ih =>
    cases l with
    | nil => rfl
    | cons c l' => simp [List.getLast?] at ih ⊢

lemma scan_timer_tokens_general (toks : List (String × ℚ)) :
    ∀ (b : Bool) (c : ℚ) (o : Option String),
      toks.foldl
        (fun st tk =>
          match parse_timer_token tk.1 with
          | some ts => (true, max st.2.1 tk.2, some ts)
          | none => st)
        (b, c, o) =
      (b || toks.any (fun tk => (parse_timer_token tk.1).isSome),
       (toks.filter (fun tk => (parse_timer_token tk.1).isSome)).foldl
         (fun a tk => max a tk.2) c,
       ((toks.filterMap (fun tk => parse_timer_token tk.1)).getLast?).or o) := by
  induction toks with
  | nil => intro b c o; simp
  | cons tk rest ih =>
    intro b c o
    rcases hp : parse_timer_token tk.1 with _ | ts
    · simpa [List.foldl_cons, hp] using ih b c o
    · simp only [List.foldl_cons, hp, List.any_cons, List.filter_cons,
        List.filterMap_cons, Option.isSome_some, if_pos]
      rw [ih true (max c tk.2) (some ts), getLast?_cons_eq_or]
      cases hl : ((rest.filterMap (fun tk => parse_timer_token tk.1)).getLast?) <;>
        simp [hl]

/-- C6 (amended): when several tokens of one image parse as valid timer
readings, the reading the interpreter stores is the one from the LAST valid
token in recognition order (each valid token overwrites `detected_timer_str`),
while the reported confidence is the maximum over all valid tokens and the
found-flag is their disjunction. -/
theorem scan_timer_tokens_spec (toks : List (String × ℚ)) :
    (scan_timer_tokens toks).2.2 =
      (toks.filterMap (fun tk => parse_timer_token tk.1)).getLast? ∧
    (scan_timer_tokens toks).1 =
      toks.any (fun tk => (parse_timer_token tk.1).isSome) ∧
    (scan_timer_tokens toks).2.1 =
      (toks.filter (fun tk => (parse_timer_token tk.1).isSome)).foldl
        (fun a tk => max a tk.2) 0 := by
  have h := scan_timer_tokens_general toks false 0 none
  unfold scan_timer_tokens
  rw [h]
  exact ⟨by simp, by simp, rfl⟩

/-- Counterexample to C6 as stated: with two valid tokens `"1:40"` (confidence
0.9) and `"1:30"` (confidence 0.5), the stored reading is `"1:30"`, from the
last valid token, not from the highest-confidence one. -/
theorem scan_timer_tokens_claim_counterexample :
    parse_timer_token "1:40" = some "1:40" ∧
    parse_timer_token "1:30" = some "1:30" ∧
    (1 : ℚ) / 2 < 9 / 10 ∧
    (scan_timer_tokens [("1:40", 9 / 10), ("1:30", 1 / 2)]).2.2 = some "1:30" ∧
    ("1:30" : String) ≠ "1:40" := by
  refine ⟨by decide, by decide, by norm_num, by decide, by decide⟩

/-- One field of an OCR batch-result row; the row itself is a `List OcrField`
so that the number of fields, i.e. the Python tuple arity, is observable. -/
inductive OcrField where
  | boolVal (b : Bool)
  | floatVal (q : ℚ)
  | idxVal (n : ℕ)
  | roundVal (o : Option ℕ)
  | timerVal (o : Option String)
deriving DecidableEq

/-- The rows `[(False, 0.0, i) for i in range(len(images))]` returned by
`PaddleOCREngine.detect_timer_batch` when `self.ocr.predict` raises
(src/ocr_engine.py:84-86). -/
def detect_timer_batch_error_rows (numImages : ℕ) : List (List OcrField) :=
  (List.range numImages).map
    (fun i => [OcrField.boolVal false, OcrField.floatVal 0, OcrField.idxVal i])

/-- The row `(found, best_conf, i, detected_round, detected_timer_str)`
appended per image on the successful path (src/ocr_engine.py:139). -/
def detect_timer_batch_success_row (found : Bool) (conf : ℚ) (i : ℕ)
    (roundNum : Option ℕ) (timer : Option String) : List OcrField :=
  [OcrField.boolVal found, OcrField.floatVal conf, OcrField.idxVal i,
   OcrField.roundVal roundNum, OcrField.timerVal timer]

/-- The caller's 5-way tuple unpacking
`detected, confidence, _, det_round, det_timer = detections[0]`
(src/scouting_engine.py:161 and 238): succeeds exactly on rows of five fields,
`none` models the `ValueError` Python raises otherwise. -/
def unpack5 (row : List OcrField) :
    Option (OcrField × OcrField × OcrField × OcrField × OcrField) :=
  match row with
  | [a, b, c, d, e] => some (a, b, c, d, e)
  | _ => none

/-- C7 is a code bug: the error path of `detect_timer_batch` returns 3-field
rows while the successful path returns 5-field rows, so the caller's 5-way
unpacking fails on a failed batch instead of reading a "no reading" result. -/
theorem detect_timer_batch_error_shape :
    (∀ n, ∀ row ∈ detect_timer_batch_error_rows n, row.length = 3) ∧
    (∀ f c i r t, (detect_timer_batch_success_row f c i r t).length = 5) ∧
    (∀ row ∈ detect_timer_batch_error_rows 1, unpack5 row = none) ∧
    (∀ f c i r t, unpack5 (detect_timer_batch_success_row f c i r t) =
      some (OcrField.boolVal f, OcrField.floatVal c, OcrField.idxVal i,
        OcrField.roundVal r, OcrField.timerVal t)) := by
  refine ⟨?_, fun f c i r t => rfl, ?_, fun f c i r t => rfl⟩
  · intro n row hrow
    rcases List.mem_map.1 hrow with ⟨i, _, rfl⟩
    rfl
  · intro row hrow
    rcases List.mem_map.1 hrow with ⟨i, _, rfl⟩
    rfl

/-- Witness for C7's theorem: the one-image failed batch produces the single
3-field row, and its 5-way unpacking fails. -/
theorem detect_timer_batch_error_shape_witness :
    ([OcrField.boolVal false, OcrField.floatVal 0, OcrField.idxVal 0] ∈
        detect_timer_batch_error_rows 1) ∧
    unpack5 [OcrField.boolVal false, OcrField.floatVal 0, OcrField.idxVal 0] =
      none :=
  ⟨by decide,
    detect_timer_batch_error_shape.2.2.1
      [OcrField.boolVal false, OcrField.floatVal 0, OcrField.idxVal 0]
      (by decide)⟩

/-- `FormationAnalyzer.calculate_centroid` (src/formation_analyzer.py:20-31):
`np.mean` over the positions, `(0.0, 0.0)` for an empty list. Polymorphic so
it serves both the `ℚ`-valued naming embedding and the `ℝ`-valued similarity
embedding. -/
def calculate_centroid {K : Type} [DivisionRing K] (ps : List (K × K)) : K × K :=
  if ps.isEmpty then (0, 0)
  else ((ps.map Prod.fst).sum / ps.length, (ps.map Prod.snd).sum / ps.length)

lemma calculate_centroid_nil {K : Type} [DivisionRing K] :
    calculate_centroid ([] : List (K × K)) = (0, 0) := rfl

/-- The `np.mean(centroids, axis=0)` of `FormationAnalyzer.name_cluster`
(src/formation_analyzer.py:221): component-wise mean of the member rounds'
centroids. `teamPositions r` stands for the chosen team's position list of
round `r` (`get_attack_positions` / `get_defend_positions`). -/
def average_cluster_centroid (rounds : List ℕ) (teamPositions : ℕ → List (ℚ × ℚ)) :
    ℚ × ℚ :=
  let centroids := rounds.map (fun r => calculate_centroid (teamPositions r))
  ((centroids.map Prod.fst).sum / centroids.length,
   (centroids.map Prod.snd).sum / centroids.length)

/-- `FormationAnalyzer.name_cluster` (src/formation_analyzer.py:195-238). -/
def name_cluster (cluster_id : ℕ) (rounds : List ℕ)
    (teamPositions : ℕ → List (ℚ × ℚ)) : String :=
  let centroids := rounds.map (fun r => calculate_centroid (teamPositions r))
  if centroids.isEmpty then "Formation " ++ toString cluster_id
  else
    let avg := average_cluster_centroid rounds teamPositions
    let positionName :=
      if avg.1 < 2 / 5 then "Left side"
      else if 3 / 5 < avg.1 then "Right side"
      else "Mid/Center"
    let positionName2 :=
      if avg.2 < 2 / 5 then positionName ++ " - Top"
      else if 3 / 5 < avg.2 then positionName ++ " - Bottom"
      else positionName
    positionName2 ++ " setup"

lemma average_cluster_centroid_all_empty (rounds : List ℕ)
    (teamPositions : ℕ → List (ℚ × ℚ)) (hempty : ∀ r ∈ rounds, teamPositions r = []) :
    average_cluster_centroid rounds teamPositions = (0, 0) := by
  unfold average_cluster_centroid
  have hs1 : (rounds.map (Prod.fst ∘ fun r => calculate_centroid (teamPositions r))).sum
      = (0 : ℚ) := by
    refine List.sum_eq_zero ?_
    intro x hx
    rcases List.mem_map.1 hx with ⟨r, hr, rfl⟩
    simp [hempty r hr, calculate_centroid_nil]
  have hs2 : (rounds.map (Prod.snd ∘ fun r => calculate_centroid (teamPositions r))).sum
      = (0 : ℚ) := by
    refine List.sum_eq_zero ?_
    intro x hx
    rcases List.mem_map.1 hx with ⟨r, hr, rfl⟩
    simp [hempty r hr, calculate_centroid_nil]
  simp only [List.map_map]
  rw [hs1, hs2]
  simp

lemma name_cluster_of_avg (cluster_id : ℕ) (rounds : List ℕ)
    (teamPositions : ℕ → List (ℚ × ℚ)) (hne : rounds ≠ [])
    (x y : ℚ) (havg : average_cluster_centroid rounds teamPositions = (x, y))
    (hx : x < 2 / 5) (hy : ¬ y < 2 / 5) (hy' : 3 / 5 < y) :
    name_cluster cluster_id rounds teamPositions = "Left side - Bottom setup" := by
  unfold name_cluster
  have hne' : ¬ (rounds.map (fun r => calculate_centroid (teamPositions r))).isEmpty = true := by
    simp [List.isEmpty_iff, hne]
  rw [if_neg hne']
  simp only [havg]
  rw [if_pos hx, if_neg hy, if_pos hy']
  decide

lemma name_cluster_all_empty (cluster_id : ℕ) (rounds : List ℕ)
    (teamPositions : ℕ → List (ℚ × ℚ)) (hne : rounds ≠ [])
    (hempty : ∀ r ∈ rounds, teamPositions r = []) :
    name_cluster cluster_id rounds teamPositions = "Left side - Top setup" := by
  unfold name_cluster
  have hne' : ¬ (rounds.map (fun r => calculate_centroid (teamPositions r))).isEmpty = true := by
    simp [List.isEmpty_iff, hne]
  rw [if_neg hne']
  simp only [average_cluster_centroid_all_empty rounds teamPositions hempty]
  norm_num
  decide

/-- Counterexample to C8 as stated: a cluster with one member round whose
position set is empty is named `"Left side - Top setup"` (every centroid
defaults to `(0, 0)`), not the generic `"Formation 3"`. -/
theorem name_cluster_claim_counterexample :
    (fun _ : ℕ => ([] : List (ℚ × ℚ))) 1 = [] ∧
    name_cluster 3 [1] (fun _ => []) = "Left side - Top setup" ∧
    name_cluster 3 [1] (fun _ => []) ≠ "Formation 3" := by
  have h := name_cluster_all_empty 3 [1] (fun _ => []) (by simp) (fun r _ => rfl)
  exact ⟨rfl, h, by rw [h]; decide⟩

/-- C8 (amended): the generic name `"Formation <id>"` is produced only when the
member round list itself is empty; a nonempty cluster all of whose member
rounds have empty position sets gets centroid `(0,0)` for every member and is
named `"Left side - Top setup"`; otherwise the name comes from the average
centroid, e.g. average `(0.2, 0.8)` yields `"Left side - Bottom setup"`. -/
theorem name_cluster_spec :
    (∀ cluster_id teamPositions,
        name_cluster cluster_id [] teamPositions = "Formation " ++ toString cluster_id) ∧
    (∀ cluster_id rounds teamPositions, rounds ≠ [] →
        (∀ r ∈ rounds, teamPositions r = []) →
        name_cluster cluster_id rounds teamPositions = "Left side - Top setup") ∧
    (∀ cluster_id rounds teamPositions, rounds ≠ [] →
        average_cluster_centroid rounds teamPositions = (1 / 5, 4 / 5) →
        name_cluster cluster_id rounds teamPositions = "Left side - Bottom setup") := by
  refine ⟨fun cluster_id tp => rfl, name_cluster_all_empty, ?_⟩
  intro cluster_id rounds tp hne havg
  exact name_cluster_of_avg cluster_id rounds tp hne _ _ havg
    (by norm_num) (by norm_num) (by norm_num)

/-- Witness for C8's amended theorem: a singleton cluster whose only member
has the single position `(0.2, 0.8)`. -/
theorem name_cluster_spec_witness :
    name_cluster 0 [1] (fun _ => [(1 / 5, 4 / 5)]) = "Left side - Bottom setup" :=
  name_cluster_spec.2.2 0 [1] (fun _ => [(1 / 5, 4 / 5)]) (by simp)
    (by norm_num [average_cluster_centroid, calculate_centroid])

/-- One entry of the raw detection dicts fed to `AgentDetector._non_max_suppression`
(src/agent_detector.py:296-305): center `(x, y)`, template size `(w, h)`,
matching confidence, and the template's agent name. -/
structure NmsDet where
  agent_name : String
  x : ℤ
  y : ℤ
  w : ℕ
  h : ℕ
  confidence : ℚ
deriving DecidableEq

/-- `AgentDetector._calculate_iou` (src/agent_detector.py:175-210); `w // 2`
is ℕ division since template sizes are nonnegative, and the final `/` is exact
division in ℚ. -/
def calculate_iou (d1 d2 : NmsDet) : ℚ :=
  let x1 : ℤ := d1.x - (d1.w / 2 : ℕ)
  let y1 : ℤ := d1.y - (d1.h / 2 : ℕ)
  let w1 : ℤ := d1.w
  let h1 : ℤ := d1.h
  let x2 : ℤ := d2.x - (d2.w / 2 : ℕ)
  let y2 : ℤ := d2.y - (d2.h / 2 : ℕ)
  let w2 : ℤ := d2.w
  let h2 : ℤ := d2.h
  let xi1 := max x1 x2
  let yi1 := max y1 y2
  let xi2 := min (x1 + w1) (x2 + w2)
  let yi2 := min (y1 + h1) (y2 + h2)
  let interW := max 0 (xi2 - xi1)
  let interH := max 0 (yi2 - yi1)
  let interArea := interW * interH
  let unionArea := w1 * h1 + w2 * h2 - interArea
  if unionArea = 0 then 0 else (interArea : ℚ) / (unionArea : ℚ)

/-- The comparison key of `detections.sort(key=..., reverse=True)`: a stable
descending sort by confidence, embedded with `List.insertionSort` (which is
stable, like Python's sort). -/
def nms_rel (a b : NmsDet) : Prop := b.confidence ≤ a.confidence

instance : DecidableRel nms_rel :=
  fun a b => inferInstanceAs (Decidable (b.confidence ≤ a.confidence))

def sort_dets_by_conf (dets : List NmsDet) : List NmsDet :=
  List.insertionSort nms_rel dets

/-- The `while detections:` loop of `AgentDetector._non_max_suppression`
(src/agent_detector.py:161-171): pop the best remaining detection, keep it and
drop every remaining detection whose IoU with it is `≥ iou_threshold`. The
`fuel` argument only bounds the iteration count; each pass consumes at least
one element, so `fuel = length` always suffices. -/
def nms_keep_loop (t : ℚ) : ℕ → List NmsDet → List NmsDet
  | 0, _ => []
  | _, [] => []
  | fuel + 1, best :: rest =>
    best :: nms_keep_loop t fuel
      (rest.filter (fun d => decide (calculate_iou best d < t)))

/-- `AgentDetector._non_max_suppression` (src/agent_detector.py:148-173). -/
def non_max_suppression (dets : List NmsDet) (t : ℚ) : List NmsDet :=
  nms_keep_loop t dets.length (sort_dets_by_conf dets)

/-- C3 (amended): the pairwise survival rule holds for a pool of exactly two
detections. For `a`, `b` with `b.confidence < a.confidence`, in either input
order: if their IoU is `≥` the threshold, exactly the higher-confidence `a`
survives; if it is `<` the threshold, both survive. The suppression decision is
identity-agnostic: the IoU never reads the agent names. (For pools of three or
more detections the pairwise rule fails, because greedy suppression is not
transitive; see the counterexample.) -/
theorem non_max_suppression_two_dets (a b : NmsDet) (t : ℚ)
    (hconf : b.confidence < a.confidence) :
    (t ≤ calculate_iou a b →
      non_max_suppression [a, b] t = [a] ∧ non_max_suppression [b, a] t = [a]) ∧
    (calculate_iou a b < t →
      non_max_suppression [a, b] t = [a, b] ∧
      non_max_suppression [b, a] t = [a, b]) ∧
    (∀ n1 n2, calculate_iou { a with agent_name := n1 } { b with agent_name := n2 } =
      calculate_iou a b) := by
  have hsort1 : sort_dets_by_conf [a, b] = [a, b] := by
    simp [sort_dets_by_conf, List.insertionSort, List.orderedInsert, nms_rel,
      le_of_lt hconf]
  have hsort2 : sort_dets_by_conf [b, a] = [a, b] := by
    simp [sort_dets_by_conf, List.insertionSort, List.orderedInsert, nms_rel,
      not_le.mpr hconf]
  refine ⟨?_, ?_, fun n1 n2 => rfl⟩
  · intro hiou
    have hd : decide (calculate_iou a b < t) = false :=
      decide_eq_false (not_lt.mpr hiou)
    constructor
    · simp [non_max_suppression, hsort1, nms_keep_loop, List.filter_cons, hd]
    · simp [non_max_suppression, hsort2, nms_keep_loop, List.filter_cons, hd]
  · intro hiou
    have hd : decide (calculate_iou a b < t) = true := decide_eq_true hiou
    constructor
    · simp [non_max_suppression, hsort1, nms_keep_loop, List.filter_cons, hd]
    · simp [non_max_suppression, hsort2, nms_keep_loop, List.filter_cons, hd]

def nmsDetA : NmsDet := ⟨"jett", 100, 50, 10, 10, 9⟩

def nmsDetB : NmsDet := ⟨"sage", 104, 50, 10, 10, 8⟩

def nmsDetC : NmsDet := ⟨"omen", 112, 50, 10, 10, 7⟩

/-- Counterexample to C3 as stated: in the pool `[A, B, C]` with threshold
0.3, `B` and `C` have IoU `1/9 < 0.3`, so the claim demands that both survive;
but `A` (higher confidence, IoU `3/7 ≥ 0.3` with `B`) suppresses `B`, so only
`C` of the pair survives. -/
theorem non_max_suppression_claim_counterexample :
    calculate_iou nmsDetB nmsDetC < 3 / 10 ∧
    nmsDetC ∈ non_max_suppression [nmsDetA, nmsDetB, nmsDetC] (3 / 10) ∧
    nmsDetB ∉ non_max_suppression [nmsDetA, nmsDetB, nmsDetC] (3 / 10) := by
  have hAB : calculate_iou nmsDetA nmsDetB = 3 / 7 := by
    norm_num [calculate_iou, nmsDetA, nmsDetB, max_def, min_def]
  have hAC : calculate_iou nmsDetA nmsDetC = 0 := by
    norm_num [calculate_iou, nmsDetA, nmsDetC, max_def, min_def]
  have hBC : calculate_iou nmsDetB nmsDetC = 1 / 9 := by
    norm_num [calculate_iou, nmsDetB, nmsDetC, max_def, min_def]
  have hsort : sort_dets_by_conf [nmsDetA, nmsDetB, nmsDetC] =
      [nmsDetA, nmsDetB, nmsDetC] := by
    norm_num [sort_dets_by_conf, List.insertionSort, List.orderedInsert, nms_rel,
      nmsDetA, nmsDetB, nmsDetC]
  have hdAB : decide (calculate_iou nmsDetA nmsDetB < 3 / 10) = false := by
    rw [hAB]; norm_num
  have hdAC : decide (calculate_iou nmsDetA nmsDetC < 3 / 10) = true := by
    rw [hAC]; norm_num
  have hdBC : decide (calculate_iou nmsDetB nmsDetC < 3 / 10) = true := by
    rw [hBC]; norm_num
  have hnms : non_max_suppression [nmsDetA, nmsDetB, nmsDetC] (3 / 10) =
      [nmsDetA, nmsDetC] := by
    simp [non_max_suppression, hsort, nms_keep_loop, List.filter_cons,
      hdAB, hdAC, hdBC]
  refine ⟨by rw [hBC]; norm_num, by rw [hnms]; decide, by rw [hnms]; decide⟩

/-- Witness for C3's amended theorem: the concrete overlapping pair `(A, B)`
(IoU `3/7 ≥ 0.3`) and the disjoint pair `(A, C)` (IoU `0 < 0.3`). -/
theorem non_max_suppression_two_dets_witness :
    nmsDetB.confidence < nmsDetA.confidence ∧
    non_max_suppression [nmsDetA, nmsDetB] (3 / 10) = [nmsDetA] ∧
    nmsDetC.confidence < nmsDetA.confidence ∧
    non_max_suppression [nmsDetA, nmsDetC] (3 / 10) = [nmsDetA, nmsDetC] :=
  ⟨by decide,
    ((non_max_suppression_two_dets nmsDetA nmsDetB (3 / 10) (by decide)).1
      (by norm_num [calculate_iou, nmsDetA, nmsDetB, max_def, min_def])).1,
    by decide,
    ((non_max_suppression_two_dets nmsDetA nmsDetC (3 / 10) (by decide)).2.1
      (by norm_num [calculate_iou, nmsDetA, nmsDetC, max_def, min_def])).1⟩

/-- `AgentDetection` (src/agent_detector.py:11-19). -/
structure AgentDetection where
  agent_name : String
  x : ℚ
  y : ℚ
  team : String
  confidence : ℚ
  pixel_x : ℤ
  pixel_y : ℤ
deriving DecidableEq

/-- The `(det.team, det.agent_name)` grouping key of
`AgentDetector._remove_duplicate_agents_by_team` (src/agent_detector.py:224). -/
def det_key (d : AgentDetection) : String × String := (d.team, d.agent_name)

/-- Stable descending sort by confidence
(`group.sort(key=..., reverse=True)`, `attack.sort(key=..., reverse=True)`). -/
def conf_rel (a b : AgentDetection) : Prop := b.confidence ≤ a.confidence

instance : DecidableRel conf_rel :=
  fun a b => inferInstanceAs (Decidable (b.confidence ≤ a.confidence))

instance : IsTotal AgentDetection conf_rel :=
  ⟨fun a b => le_total b.confidence a.confidence⟩

instance : IsTrans AgentDetection conf_rel :=
  ⟨fun _ _ _ h1 h2 => le_trans h2 h1⟩

def sort_agents_by_conf (dets : List AgentDetection) : List AgentDetection :=
  List.insertionSort conf_rel dets

/-- One step of building `team_agent_groups` (src/agent_detector.py:221-227):
an insertion-ordered association list, like a Python dict. -/
def add_det_to_groups (gs : List ((String × String) × List AgentDetection))
    (d : AgentDetection) : List ((String × String) × List AgentDetection) :=
  if gs.any (fun g => g.1 == det_key d) then
    gs.map (fun g => if g.1 == det_key d then (g.1, g.2 ++ [d]) else g)
  else gs ++ [(det_key d, [d])]

def group_by_team_agent (dets : List AgentDetection) :
    List ((String × String) × List AgentDetection) :=
  dets.foldl add_det_to_groups []

/-- `AgentDetector._remove_duplicate_agents_by_team`
(src/agent_detector.py:212-242): per `(team, agent)` group keep `group[0]`
after a stable descending confidence sort (for singleton groups the sort is
the identity, so taking the sorted head covers both source branches). -/
def remove_duplicate_agents_by_team (dets : List AgentDetection) :
    List AgentDetection :=
  (group_by_team_agent dets).filterMap (fun g => (sort_agents_by_conf g.2).head?)

/-- `AgentDetector._limit_team_size` (src/agent_detector.py:346-362). -/
def limit_team_size (dets : List AgentDetection) (maxPerTeam : ℕ := 5) :
    List AgentDetection :=
  let attack := dets.filter (fun d => d.team == "attack")
  let defend := dets.filter (fun d => d.team == "defend")
  (sort_agents_by_conf attack).take maxPerTeam ++
    (sort_agents_by_conf defend).take maxPerTeam

/-- The color decision of `AgentDetector._classify_team`
(src/agent_detector.py:89-146), parameterized by the number of sampled ring
pixels and their average RGB color; an empty sampling region is subsumed by a
ring pixel count below 10. -/
def classify_team_color (ringPixelCount : ℕ) (r g b offset : ℚ) : String :=
  if ringPixelCount < 10 then "unknown"
  else if g + offset < r ∧ b + offset < r then "attack"
  else if r + offset < b ∨ r + offset < g then "defend"
  else if g ≤ r ∧ b ≤ r then "attack"
  else "defend"

lemma mem_limit_team_size_team (dets : List AgentDetection) (k : ℕ)
    (d : AgentDetection) (hd : d ∈ limit_team_size dets k) :
    d.team = "attack" ∨ d.team = "defend" := by
  unfold limit_team_size at hd
  rcases List.mem_append.1 hd with h | h
  · left
    have hs : d ∈ sort_agents_by_conf (dets.filter (fun d => d.team == "attack")) :=
      List.take_subset _ _ h
    have hf : d ∈ dets.filter (fun d => d.team == "attack") :=
      (List.perm_insertionSort conf_rel _).subset hs
    have := (List.mem_filter.1 hf).2
    exact eq_of_beq this
  · right
    have hs : d ∈ sort_agents_by_conf (dets.filter (fun d => d.team == "defend")) :=
      List.take_subset _ _ h
    have hf : d ∈ dets.filter (fun d => d.team == "defend") :=
      (List.perm_insertionSort conf_rel _).subset hs
    have := (List.mem_filter.1 hf).2
    exact eq_of_beq this

/-- C10: every detection output by the detect pipeline's final per-team
size-limiting step has team `"attack"` or `"defend"`; a detection the team
classifier labelled `"unknown"` never appears in the output, although the
classifier can produce that label (for example when fewer than 10 ring pixels
are sampled). -/
theorem detect_output_teams (dets : List AgentDetection) :
    (∀ d ∈ limit_team_size (remove_duplicate_agents_by_team dets) 5,
        d.team = "attack" ∨ d.team = "defend") ∧
    (∀ d : AgentDetection, d.team = "unknown" →
        d ∉ limit_team_size (remove_duplicate_agents_by_team dets) 5) ∧
    classify_team_color 5 0 0 0 40 = "unknown" := by
  refine ⟨fun d hd => mem_limit_team_size_team _ _ d hd, ?_, rfl⟩
  intro d hteam hd
  rcases mem_limit_team_size_team _ _ d hd with h | h
  · rw [hteam] at h
    exact absurd h (by decide)
  · rw [hteam] at h
    exact absurd h (by decide)

/-- Witness for C10: a lone `"unknown"`-team detection is dropped by the
pipeline tail. -/
theorem detect_output_teams_witness :
    (⟨"jett", 0, 0, "unknown", 9, 0, 0⟩ : AgentDetection).team = "unknown" ∧
    (⟨"jett", 0, 0, "unknown", 9, 0, 0⟩ : AgentDetection) ∉
      limit_team_size
        (remove_duplicate_agents_by_team [⟨"jett", 0, 0, "unknown", 9, 0, 0⟩]) 5 :=
  ⟨rfl,
    (detect_output_teams [⟨"jett", 0, 0, "unknown", 9, 0, 0⟩]).2.1
      ⟨"jett", 0, 0, "unknown", 9, 0, 0⟩ rfl⟩

lemma group_by_team_agent_spec (dets : List AgentDetection) :
    (∀ g ∈ group_by_team_agent dets,
        g.2 = dets.filter (fun d => det_key d == g.1) ∧ g.2 ≠ []) ∧
    (∀ d ∈ dets, ∃ g ∈ group_by_team_agent dets, g.1 = det_key d) := by
  induction dets using List.reverseRecOn with
  | nil => exact ⟨by simp [group_by_team_agent], by simp⟩
  | append_singleton dets d ih =>
    obtain ⟨ihA, ihB⟩ := ih
    have hfold : group_by_team_agent (dets ++ [d]) =
        add_det_to_groups (group_by_team_agent dets) d := by
      simp [group_by_team_agent, List.foldl_append]
    by_cases hany :
        (group_by_team_agent dets).any (fun g => g.1 == det_key d) = true
    · -- the key is already present: its group gets `d` appended
      rw [hfold]
      unfold add_det_to_groups
      rw [if_pos hany]
      constructor
      · intro g' hg'
        rcases List.mem_map.1 hg' with ⟨g, hg, rfl⟩
        obtain ⟨hfilter, hne⟩ := ihA g hg
        by_cases hkey : g.1 == det_key d
        · rw [if_pos hkey]
          have hkey' : det_key d == g.1 := by
            rw [eq_of_beq hkey]
            exact beq_self_eq_true _
          constructor
          · simp [List.filter_append, hkey', ← hfilter]
          · simp
        · rw [if_neg hkey]
          have hkey' : ¬ (det_key d == g.1) = true := by
            intro h
            exact hkey (by rw [eq_of_beq h]; exact beq_self_eq_true _)
          constructor
          · simp only [List.filter_append, ← hfilter]
            simp [hkey']
          · exact hne
      · intro d' hd'
        rcases List.mem_append.1 hd' with hmem | hmem
        · rcases ihB d' hmem with ⟨g, hg, hgkey⟩
          refine ⟨(if g.1 == det_key d then (g.1, g.2 ++ [d]) else g),
            List.mem_map_of_mem _ hg, ?_⟩
          by_cases hkey : g.1 == det_key d
          · rw [if_pos hkey]; exact hgkey
          · rw [if_neg hkey]; exact hgkey
        · rcases List.any_eq_true.1 hany with ⟨g, hg, hgkey⟩
          refine ⟨(g.1, g.2 ++ [d]), ?_, ?_⟩
          · have : (if g.1 == det_key d then (g.1, g.2 ++ [d]) else g) =
                (g.1, g.2 ++ [d]) := if_pos hgkey
            exact this ▸ List.mem_map_of_mem _ hg
          · have hd'' : d' = d := by simpa using hmem
            rw [hd'']
            exact eq_of_beq hgkey
    · -- new key: a fresh singleton group is appended
      rw [hfold]
      unfold add_det_to_groups
      rw [if_neg hany]
      have hnotin : ∀ g ∈ group_by_team_agent dets, ¬ (g.1 == det_key d) = true := by
        intro g hg h
        exact hany (List.any_eq_true.2 ⟨g, hg, h⟩)
      constructor
      · intro g' hg'
        rcases List.mem_append.1 hg' with hmem | hmem
        · obtain ⟨hfilter, hne⟩ := ihA g' hmem
          have hkey' : ¬ (det_key d == g'.1) = true := by
            intro h
            exact hnotin g' hmem (by rw [eq_of_beq h]; exact beq_self_eq_true _)
          constructor
          · simp only [List.filter_append, ← hfilter]
            simp [hkey']
          · exact hne
        · have hg'' : g' = (det_key d, [d]) := by simpa using hmem
          subst hg''
          constructor
          · have hnone : dets.filter (fun x => det_key x == det_key d) = [] := by
              rw [List.filter_eq_nil_iff]
              intro a ha h
              rcases ihB a ha with ⟨g, hg, hgkey⟩
              refine hnotin g hg ?_
              rw [hgkey, eq_of_beq h]
              exact beq_self_eq_true _
            simp [List.filter_append, hnone]
          · simp
      · intro d' hd'
        rcases List.mem_append.1 hd' with hmem | hmem
        · rcases ihB d' hmem with ⟨g, hg, hgkey⟩
          exact ⟨g, List.mem_append_left _ hg, hgkey⟩
        · have hd'' : d' = d := by simpa using hmem
          exact ⟨(det_key d, [d]), List.mem_append_right _ (by simp), by rw [hd'']⟩

lemma sorted_head_max_conf (l : List AgentDetection) (d : AgentDetection)
    (hd : (sort_agents_by_conf l).head? = some d) :
    d ∈ l ∧ ∀ e ∈ l, e.confidence ≤ d.confidence := by
  have hperm : (sort_agents_by_conf l).Perm l := List.perm_insertionSort conf_rel l
  have hsorted : List.Sorted conf_rel (sort_agents_by_conf l) :=
    List.sorted_insertionSort conf_rel l
  rcases hs : sort_agents_by_conf l with _ | ⟨x, rest⟩
  · rw [hs] at hd; exact absurd hd (by simp)
  · rw [hs] at hd hperm hsorted
    have hx : x = d := by simpa using hd
    subst hx
    constructor
    · exact hperm.subset (List.mem_cons_self x rest)
    · intro e he
      rcases List.mem_cons.1 (hperm.mem_iff.2 he) with rfl | hmem
      · exact le_refl _
      · exact List.rel_of_sorted_cons hsorted e hmem

lemma sort_agents_head?_of_ne_nil (l : List AgentDetection) (hne : l ≠ []) :
    ∃ d, (sort_agents_by_conf l).head? = some d := by
  have hperm : (sort_agents_by_conf l).Perm l := List.perm_insertionSort conf_rel l
  rcases hs : sort_agents_by_conf l with _ | ⟨x, rest⟩
  · rw [hs] at hperm
    exact absurd (hperm.nil_eq.symm) hne
  · exact ⟨x, rfl⟩

lemma conf_ne_of_pairwise {l : List AgentDetection}
    (hconf : l.Pairwise (fun a b => a.confidence ≠ b.confidence))
    {a b : AgentDetection} (ha : a ∈ l) (hb : b ∈ l) (hne : a ≠ b) :
    a.confidence ≠ b.confidence :=
  hconf.forall (fun _ _ h => h.symm) ha hb hne

lemma mem_take_sorted_iff (l : List AgentDetection)
    (hs : List.Sorted conf_rel l)
    (hconf : l.Pairwise (fun a b => a.confidence ≠ b.confidence)) :
    ∀ (k : ℕ) (d : AgentDetection),
      d ∈ l.take k ↔
        d ∈ l ∧ (l.filter (fun e => decide (d.confidence < e.confidence))).length < k := by
  induction l with
  | nil => intro k d; simp
  | cons a l' ih =>
    intro k d
    have hs' : List.Sorted conf_rel l' := hs.of_cons
    have hconf' : l'.Pairwise (fun a b => a.confidence ≠ b.confidence) :=
      hconf.of_cons
    cases k with
    | zero => simp
    | succ k =>
      by_cases hd : d = a
      · subst hd
        have hfilter : (d :: l').filter
            (fun e => decide (d.confidence < e.confidence)) = [] := by
          rw [List.filter_eq_nil_iff]
          intro e he
          rcases List.mem_cons.1 he with rfl | hmem
          · simp
          · have : e.confidence ≤ d.confidence :=
              List.rel_of_sorted_cons hs e hmem
            simp [not_lt.mpr this]
        simp [List.take_succ_cons, hfilter]
      · have hmemiff : d ∈ a :: l'.take k ↔ d ∈ l'.take k := by
          simp [List.mem_cons, hd]
        rw [List.take_succ_cons, hmemiff, ih hs' hconf' k d]
        constructor
        · rintro ⟨hdl', hlen⟩
          have hda : d.confidence < a.confidence := by
            have hne : d.confidence ≠ a.confidence :=
              conf_ne_of_pairwise hconf (List.mem_cons_of_mem _ hdl')
                (List.mem_cons_self _ _) hd
            have hle : d.confidence ≤ a.confidence :=
              List.rel_of_sorted_cons hs d hdl'
            exact lt_of_le_of_ne hle hne
          refine ⟨List.mem_cons_of_mem _ hdl', ?_⟩
          rw [List.filter_cons, if_pos (by simpa using hda)]
          simpa using hlen
        · rintro ⟨hdal, hlen⟩
          have hdl' : d ∈ l' := by
            rcases List.mem_cons.1 hdal with rfl | hmem
            · exact absurd rfl hd
            · exact hmem
          have hda : d.confidence < a.confidence := by
            have hne : d.confidence ≠ a.confidence :=
              conf_ne_of_pairwise hconf (List.mem_cons_of_mem _ hdl')
                (List.mem_cons_self _ _) hd
            have hle : d.confidence ≤ a.confidence :=
              List.rel_of_sorted_cons hs d hdl'
            exact lt_of_le_of_ne hle hne
          refine ⟨hdl', ?_⟩
          rw [List.filter_cons, if_pos (by simpa using hda)] at hlen
          simpa using hlen

lemma mem_take_sorted_team_filter (dets : List AgentDetection)
    (hconf : dets.Pairwise (fun a b => a.confidence ≠ b.confidence))
    (T : String) (k : ℕ) (d : AgentDetection) :
    d ∈ (sort_agents_by_conf (dets.filter (fun x => x.team == T))).take k ↔
      (d.team = T ∧ d ∈ dets ∧
       (dets.filter (fun e => e.team == T && decide (d.confidence < e.confidence))).length
         < k) := by
  set fl := dets.filter (fun x => x.team == T) with hfl
  have hperm : (sort_agents_by_conf fl).Perm fl := List.perm_insertionSort conf_rel fl
  have hsorted : List.Sorted conf_rel (sort_agents_by_conf fl) :=
    List.sorted_insertionSort conf_rel fl
  have hconffl : fl.Pairwise (fun a b => a.confidence ≠ b.confidence) :=
    hconf.sublist (List.filter_sublist dets)
  have hconfs : (sort_agents_by_conf fl).Pairwise
      (fun a b => a.confidence ≠ b.confidence) :=
    (List.Perm.pairwise_iff (fun h => h.symm) hperm).2 hconffl
  rw [mem_take_sorted_iff _ hsorted hconfs k d]
  have hmem : d ∈ sort_agents_by_conf fl ↔ d ∈ fl := hperm.mem_iff
  have hflen : ((sort_agents_by_conf fl).filter
        (fun e => decide (d.confidence < e.confidence))).length =
      (fl.filter (fun e => decide (d.confidence < e.confidence))).length :=
    (hperm.filter _).length_eq
  have hff : fl.filter (fun e => decide (d.confidence < e.confidence)) =
      dets.filter (fun e => e.team == T && decide (d.confidence < e.confidence)) := by
    rw [hfl, List.filter_filter]
    refine List.filter_congr ?_
    intro x hx
    rw [Bool.and_comm]
  rw [hmem, hflen, hff, hfl, List.mem_filter]
  constructor
  · rintro ⟨⟨hdets, hteam⟩, hlen⟩
    exact ⟨eq_of_beq hteam, hdets, hlen⟩
  · rintro ⟨hteam, hdets, hlen⟩
    exact ⟨⟨hdets, by rw [hteam]; exact beq_self_eq_true _⟩, hlen⟩

/-- C4 (amended): with pairwise-distinct confidences,
(1) after the uniqueness filter a detection remains iff it has the strictly
highest confidence among all detections sharing its `(team, character)` pair
(hence exactly the most confident detection of each pair remains — not, as the
pairwise reading would have it, the more confident of every two duplicates);
(2) the team-size-limiting step retains a detection iff its team is
`"attack"` or `"defend"`, it is present, and fewer than 5 same-team detections
have strictly greater confidence (i.e. each team keeps exactly its top 5). -/
theorem agent_dedup_and_limit_spec (dets : List AgentDetection)
    (hconf : dets.Pairwise (fun a b => a.confidence ≠ b.confidence)) :
    (∀ d ∈ dets,
      (d ∈ remove_duplicate_agents_by_team dets ↔
        ∀ d' ∈ dets, d' ≠ d → det_key d' = det_key d →
          d'.confidence < d.confidence)) ∧
    (∀ d : AgentDetection,
      d ∈ limit_team_size dets 5 ↔
        ((d.team = "attack" ∨ d.team = "defend") ∧ d ∈ dets ∧
         (dets.filter
           (fun e => e.team == d.team && decide (d.confidence < e.confidence))).length
           < 5)) := by
  obtain ⟨hgroups, hcover⟩ := group_by_team_agent_spec dets
  constructor
  · intro d hd
    constructor
    · -- a surviving detection strictly dominates its key group
      intro hmem d' hd' hne hkey
      rcases List.mem_filterMap.1 hmem with ⟨g, hg, hhead⟩
      obtain ⟨hfilter, _⟩ := hgroups g hg
      obtain ⟨hdg, hmax⟩ := sorted_head_max_conf g.2 d hhead
      have hdkey : det_key d == g.1 := by
        have := (List.mem_filter.1 (hfilter ▸ hdg)).2
        exact this
      have hd'g : d' ∈ g.2 := by
        rw [hfilter, List.mem_filter]
        exact ⟨hd', by rw [hkey]; exact hdkey⟩
      have hle : d'.confidence ≤ d.confidence := hmax d' hd'g
      have hne' : d'.confidence ≠ d.confidence :=
        conf_ne_of_pairwise hconf hd' hd hne
      exact lt_of_le_of_ne hle hne'
    · -- a strictly dominating detection survives
      intro hdom
      rcases hcover d hd with ⟨g, hg, hgkey⟩
      obtain ⟨hfilter, hne⟩ := hgroups g hg
      rcases sort_agents_head?_of_ne_nil g.2 hne with ⟨m, hm⟩
      obtain ⟨hmg, hmax⟩ := sorted_head_max_conf g.2 m hm
      have hdg : d ∈ g.2 := by
        rw [hfilter, List.mem_filter]
        exact ⟨hd, by rw [hgkey]; exact beq_self_eq_true _⟩
      have hmdets : m ∈ dets := by
        have := List.mem_filter.1 (hfilter ▸ hmg)
        exact this.1
      have hmkey : det_key m = det_key d := by
        have := (List.mem_filter.1 (hfilter ▸ hmg)).2
        rw [← hgkey]
        exact eq_of_beq this
      have hmd : m = d := by
        by_contra hmd
        have h1 : m.confidence < d.confidence := hdom m hmdets hmd hmkey
        have h2 : d.confidence ≤ m.confidence := hmax d hdg
        exact absurd h1 (not_lt.mpr h2)
      exact List.mem_filterMap.2 ⟨g, hg, by rw [← hmd]; exact hm⟩
  · intro d
    unfold limit_team_size
    rw [List.mem_append, mem_take_sorted_team_filter dets hconf "attack" 5 d,
      mem_take_sorted_team_filter dets hconf "defend" 5 d]
    constructor
    · rintro (⟨hteam, hdets, hlen⟩ | ⟨hteam, hdets, hlen⟩)
      · exact ⟨Or.inl hteam, hdets, by rw [hteam]; exact hlen⟩
      · exact ⟨Or.inr hteam, hdets, by rw [hteam]; exact hlen⟩
    · rintro ⟨hteam | hteam, hdets, hlen⟩
      · exact Or.inl ⟨hteam, hdets, by rw [← hteam]; exact hlen⟩
      · exact Or.inr ⟨hteam, hdets, by rw [← hteam]; exact hlen⟩

def dupDet1 : AgentDetection := ⟨"jett", 0, 0, "attack", 9, 0, 0⟩

def dupDet2 : AgentDetection := ⟨"jett", 1, 0, "attack", 8, 10, 0⟩

def dupDet3 : AgentDetection := ⟨"jett", 0, 1, "attack", 7, 0, 10⟩

/-- Counterexample to C4 as stated: among three detections of the same
`(team, character)` pair with confidences 9 > 8 > 7, the pair `(d2, d3)` has
`d2` as its higher-confidence member, yet `d2` does not remain after the
uniqueness filter (only the group maximum `d1` does). -/
theorem agent_dedup_claim_counterexample :
    det_key dupDet2 = det_key dupDet3 ∧
    dupDet3.confidence < dupDet2.confidence ∧
    dupDet2 ∉ remove_duplicate_agents_by_team [dupDet1, dupDet2, dupDet3] ∧
    dupDet3 ∉ remove_duplicate_agents_by_team [dupDet1, dupDet2, dupDet3] ∧
    dupDet1 ∈ remove_duplicate_agents_by_team [dupDet1, dupDet2, dupDet3] := by
  refine ⟨rfl, by decide, by decide, by decide, by decide⟩

/-- Witness for C4's amended theorem: two duplicate attack Jetts, of which the
more confident one survives the uniqueness filter, and a one-element team that
survives the size limit. -/
theorem agent_dedup_and_limit_spec_witness :
    dupDet1 ∈ remove_duplicate_agents_by_team [dupDet1, dupDet2] ∧
    dupDet1 ∈ limit_team_size [dupDet1] 5 :=
  ⟨((agent_dedup_and_limit_spec [dupDet1, dupDet2] (by decide)).1 dupDet1
      (by decide)).mpr (by decide),
    ((agent_dedup_and_limit_spec [dupDet1] (by decide)).2 dupDet1).mpr
      ⟨Or.inl rfl, by decide, by decide⟩⟩

/-- What one probe of the video yields to the engine: the probed frame's exact
timestamp, the frame itself (type parameter `F`), and the OCR result
`(det_round, det_timer)` for it. `none` models
`frame_extractor.get_frame_at_time` returning `None`
(src/frame_extractor.py:63-73, src/scouting_engine.py:150-161, 229-238). -/
structure OcrProbe (F : Type) where
  ts : ℚ
  frame : F
  roundNum : Option ℕ
  timer : Option String

/-- Python truthiness of `det_round` / `best_round` (`if ref_round:`), which is
falsy for both `None` and `0`. -/
def pyTruthyRound (o : Option ℕ) : Bool :=
  match o with
  | some r => decide (r ≠ 0)
  | none => false

/-- The `best_*` tracking state of `ScoutingEngine._refine_search`
(src/scouting_engine.py:221-225). -/
structure RefineState (F : Type) where
  bestFrame : Option F
  bestTimestamp : ℚ
  bestTimer : Option String
  bestRound : Option ℕ
  bestScore : ℤ

def initRefineState {F : Type} : RefineState F :=
  ⟨none, 0, none, none, -1⟩

/-- The assignment block executed when a sample improves the tracked best
(src/scouting_engine.py:246-252 and 255-261). -/
def refineUpdate {F : Type} (st : RefineState F) (p : OcrProbe F) (score : ℤ) :
    RefineState F :=
  { bestFrame := some p.frame
    bestTimestamp := p.ts
    bestTimer := p.timer
    bestRound := if pyTruthyRound p.roundNum then p.roundNum else st.bestRound
    bestScore := score }

/-- The `while (high - low) > 0.1:` binary-search loop of
`ScoutingEngine._refine_search` (src/scouting_engine.py:227-263). The `fuel`
argument only bounds the iteration count (the interval halves every pass, so
the loop always terminates); all claims are proved for every fuel value. -/
def refineLoop {F : Type} (probe : ℚ → Option (OcrProbe F)) :
    ℕ → ℚ → ℚ → RefineState F → RefineState F
  | 0, _, _, st => st
  | fuel + 1, low, high, st =>
    if 1 / 10 < high - low then
      match probe ((low + high) / 2) with
      | none => refineLoop probe fuel ((low + high) / 2) high st
      | some p =>
        let score := get_refinement_score p.timer
        if 100 ≤ score then
          refineLoop probe fuel ((low + high) / 2) high
            (if st.bestScore < score ∨ (score = st.bestScore ∧ st.bestTimestamp < p.ts)
             then refineUpdate st p score else st)
        else if 0 < score then
          refineLoop probe fuel low ((low + high) / 2)
            (if st.bestScore < score then refineUpdate st p score else st)
        else refineLoop probe fuel ((low + high) / 2) high st
    else st

/-- `ScoutingEngine._refine_search` (src/scouting_engine.py:217-267): run the
binary-search loop, then return the tracked best sample only if a frame was
tracked and its score is at least 35. -/
def refine_search {F : Type} (probe : ℚ → Option (OcrProbe F)) (fuel : ℕ)
    (low high : ℚ) : Option (F × ℚ × Option ℕ × ℤ × Option String) :=
  let st := refineLoop probe fuel low high initRefineState
  match st.bestFrame with
  | some f =>
    if 35 ≤ st.bestScore then
      some (f, st.bestTimestamp, st.bestRound, st.bestScore, st.bestTimer)
    else none
  | none => none

/-- One saved round: the arguments of `screenshot_manager.save_round`
(src/scouting_engine.py:190-196). -/
structure RoundEvent (F : Type) where
  frame : F
  targetRound : ℕ
  ts : ℚ

/-- The coarse-to-fine scan loop of `ScoutingEngine.process_video`
(src/scouting_engine.py:138-203), with `COARSE_STEP = 5`, `SKIP_AMOUNT = 60`,
collecting the saved rounds in order. `innerFuel` is the refinement loop's
fuel; `fuel` bounds the outer iteration count (the cursor advances at least 5
seconds per pass, so `fuel` proportional to the duration suffices); all claims
are proved for every fuel value. -/
def process_loop {F : Type} (probe : ℚ → Option (OcrProbe F)) (duration : ℚ)
    (innerFuel : ℕ) : ℕ → ℚ → ℕ → List (RoundEvent F)
  | 0, _, _ => []
  | fuel + 1, currentTime, roundCount =>
    if currentTime < duration then
      match probe currentTime with
      | none => process_loop probe duration innerFuel fuel (currentTime + 5) roundCount
      | some p =>
        if p.timer.isSome && is_timer_in_130s p.timer then
          match refine_search probe innerFuel (max 0 (p.ts - 5)) p.ts with
          | some (f, bts, brnd, _, _) =>
            let newCount := roundCount + 1
            let target := if pyTruthyRound brnd then brnd.getD 0 else newCount
            ⟨f, target, bts⟩ ::
              process_loop probe duration innerFuel fuel (p.ts + 60) newCount
          | none => process_loop probe duration innerFuel fuel (p.ts + 60) roundCount
        else process_loop probe duration innerFuel fuel (currentTime + 5) roundCount
    else []

/-- The timestamp contract of `get_frame_at_time` composed with OCR: a probe at
time `t` yields the frame at index `int(t * fps)`, whose timestamp
`int(t * fps) / fps` is nonnegative, at most `t`, and less than `1/fps ≤ ε`
below it (src/frame_extractor.py:63-73). -/
def TsOK {F : Type} (probe : ℚ → Option (OcrProbe F)) (ε : ℚ) : Prop :=
  ∀ t p, probe t = some p → 0 ≤ p.ts ∧ t - ε < p.ts ∧ p.ts ≤ t

/-- `best_score >= 35` only ever holds after some assignment, and every
assignment sets `best_frame`. -/
def RefFrameInv {F : Type} (st : RefineState F) : Prop :=
  35 ≤ st.bestScore → st.bestFrame.isSome = true

lemma refineLoop_frame_inv {F : Type} (probe : ℚ → Option (OcrProbe F)) :
    ∀ (fuel : ℕ) (low high : ℚ) (st : RefineState F),
      RefFrameInv st → RefFrameInv (refineLoop probe fuel low high st) := by
  intro fuel
  induction fuel with
  | zero => intro low high st h; exact h
  | succ fuel ih =>
    intro low high st h
    rw [refineLoop]
    split
    · split
      · exact ih _ _ st h
      · dsimp only
        split
        · refine ih _ _ _ ?_
          split
          · intro _; rfl
          · exact h
        · split
          · refine ih _ _ _ ?_
            split
            · intro _; rfl
            · exact h
          · exact ih _ _ st h
    · exact h

/-- Timestamp bounds maintained by the best-sample tracking: once the score is
at least 35, the tracked timestamp lies in `(low₀ - ε, high₀]`. -/
def RefTsInv {F : Type} (low0 high0 ε : ℚ) (st : RefineState F) : Prop :=
  35 ≤ st.bestScore → low0 - ε < st.bestTimestamp ∧ st.bestTimestamp ≤ high0

lemma refineLoop_ts_inv {F : Type} (probe : ℚ → Option (OcrProbe F))
    (ε low0 high0 : ℚ) (hts : TsOK probe ε) :
    ∀ (fuel : ℕ) (low high : ℚ) (st : RefineState F),
      low0 ≤ low → high ≤ high0 → low ≤ high →
      RefTsInv low0 high0 ε st →
      RefTsInv low0 high0 ε (refineLoop probe fuel low high st) := by
  intro fuel
  induction fuel with
  | zero => intro low high st _ _ _ h; exact h
  | succ fuel ih =>
    intro low high st hl hh hlh h
    rw [refineLoop]
    split
    · have hmid1 : low ≤ (low + high) / 2 := by linarith
      have hmid2 : (low + high) / 2 ≤ high := by linarith
      split
      · exact ih _ _ st (le_trans hl hmid1) hh hmid2 h
      · rename_i p hp
        obtain ⟨hts0, htslb, htsub⟩ := hts _ p hp
        dsimp only
        split
        · refine ih _ _ _ (le_trans hl hmid1) hh hmid2 ?_
          split
          · intro _
            constructor
            · show low0 - ε < p.ts
              have : low0 ≤ (low + high) / 2 := le_trans hl hmid1
              linarith
            · show p.ts ≤ high0
              have : (low + high) / 2 ≤ high0 := le_trans hmid2 hh
              linarith
          · exact h
        · split
          · refine ih _ _ _ hl (le_trans hmid2 hh) hmid1 ?_
            split
            · intro _
              constructor
              · show low0 - ε < p.ts
                have : low0 ≤ (low + high) / 2 := le_trans hl hmid1
                linarith
              · show p.ts ≤ high0
                have : (low + high) / 2 ≤ high0 := le_trans hmid2 hh
                linarith
            · exact h
          · exact ih _ _ st (le_trans hl hmid1) hh hmid2 h
    · exact h

/-- C5: a refinement over `[low, high]` produces a round event iff the
best-tracked sample's score is at least 35 (`best_frame` is then necessarily
set, since every assignment stores a frame); when the best score is below 35
the refinement returns `none` — no exception, modelled by totality of
`refine_search` — and the coarse scan continues: the locator step records no
event and proceeds with the cursor at the probe timestamp plus the 60 s skip. -/
theorem refine_search_spec {F : Type} (probe : ℚ → Option (OcrProbe F))
    (fuel : ℕ) (low high : ℚ) :
    ((∃ res, refine_search probe fuel low high = some res) ↔
      35 ≤ (refineLoop probe fuel low high initRefineState).bestScore) ∧
    (¬ 35 ≤ (refineLoop probe fuel low high initRefineState).bestScore →
      refine_search probe fuel low high = none) ∧
    (∀ (duration : ℚ) (innerFuel outerFuel : ℕ) (ct : ℚ) (rc : ℕ) (p : OcrProbe F),
      ct < duration → probe ct = some p →
      (p.timer.isSome && is_timer_in_130s p.timer) = true →
      refine_search probe innerFuel (max 0 (p.ts - 5)) p.ts = none →
      process_loop probe duration innerFuel (outerFuel + 1) ct rc =
        process_loop probe duration innerFuel outerFuel (p.ts + 60) rc) := by
  have hinit : RefFrameInv (initRefineState (F := F)) := by
    intro h
    rw [show (initRefineState (F := F)).bestScore = -1 from rfl] at h
    exact absurd h (by norm_num)
  have hframe : RefFrameInv (refineLoop probe fuel low high initRefineState) :=
    refineLoop_frame_inv probe fuel low high initRefineState hinit
  refine ⟨⟨?_, ?_⟩, ?_, ?_⟩
  · rintro ⟨res, hres⟩
    unfold refine_search at hres
    dsimp only at hres
    rcases hf : (refineLoop probe fuel low high initRefineState).bestFrame with _ | f
    · rw [hf] at hres
      exact absurd hres (by simp)
    · rw [hf] at hres
      by_cases h35 : 35 ≤ (refineLoop probe fuel low high initRefineState).bestScore
      · exact h35
      · dsimp only at hres
        rw [if_neg h35] at hres
        exact absurd hres (by simp)
  · intro h35
    have hsome := hframe h35
    rcases Option.isSome_iff_exists.1 hsome with ⟨f, hf⟩
    refine ⟨(f, (refineLoop probe fuel low high initRefineState).bestTimestamp,
      (refineLoop probe fuel low high initRefineState).bestRound,
      (refineLoop probe fuel low high initRefineState).bestScore,
      (refineLoop probe fuel low high initRefineState).bestTimer), ?_⟩
    unfold refine_search
    dsimp only
    rw [hf]
    dsimp only
    rw [if_pos h35]
  · intro h35
    unfold refine_search
    dsimp only
    rcases hf : (refineLoop probe fuel low high initRefineState).bestFrame with _ | f
    · rfl
    · dsimp only
      rw [if_neg h35]
  · intro duration innerFuel outerFuel ct rc p hlt hp hcond hrefine
    rw [process_loop]
    rw [if_pos hlt, hp]
    simp only [hcond, if_true, hrefine]

/-- The probe used by the C5 witness: a single frame at time 0 whose OCR reads
`1:35`. -/
def c5_probe : ℚ → Option (OcrProbe Unit) :=
  fun t => if t = 0 then some ⟨0, (), none, some "1:35"⟩ else none

/-- Witness for C5: with no refinement fuel the tracked best keeps its initial
score `-1 < 35`, so the refinement yields no event and the coarse step at time
0 continues at `0 + 60`. -/
theorem refine_search_spec_witness :
    refine_search c5_probe 0 (max 0 ((0 : ℚ) - 5)) 0 = none ∧
    process_loop c5_probe 1 0 1 0 0 = process_loop c5_probe 1 0 0 (0 + 60) 0 := by
  have hscore : ¬ (35 : ℤ) ≤
      (refineLoop c5_probe 0 (max 0 ((0 : ℚ) - 5)) 0 initRefineState).bestScore := by
    decide
  have hnone : refine_search c5_probe 0 (max 0 ((0 : ℚ) - 5)) 0 = none :=
    (refine_search_spec c5_probe 0 (max 0 ((0 : ℚ) - 5)) 0).2.1 hscore
  have hp : c5_probe 0 = some ⟨0, (), none, some "1:35"⟩ := by
    simp [c5_probe]
  refine ⟨hnone, ?_⟩
  exact (refine_search_spec c5_probe 0 (max 0 ((0 : ℚ) - 5)) 0).2.2 1 0 0 0 0
    ⟨0, (), none, some "1:35"⟩ (by norm_num) hp (by decide) hnone

lemma refine_search_ts_bound {F : Type} (probe : ℚ → Option (OcrProbe F))
    (ε : ℚ) (hts : TsOK probe ε) (fuel : ℕ) (low high : ℚ) (hlh : low ≤ high)
    (res : F × ℚ × Option ℕ × ℤ × Option String)
    (h : refine_search probe fuel low high = some res) :
    low - ε < res.2.1 ∧ res.2.1 ≤ high := by
  have hinv : RefTsInv low high ε (refineLoop probe fuel low high initRefineState) := by
    refine refineLoop_ts_inv probe ε low high hts fuel low high initRefineState
      le_rfl le_rfl hlh ?_
    intro h35
    rw [show (initRefineState (F := F)).bestScore = -1 from rfl] at h35
    exact absurd h35 (by norm_num)
  unfold refine_search at h
  dsimp only at h
  rcases hf : (refineLoop probe fuel low high initRefineState).bestFrame with _ | f
  · rw [hf] at h
    exact absurd h (by simp)
  · rw [hf] at h
    dsimp only at h
    by_cases h35 : 35 ≤ (refineLoop probe fuel low high initRefineState).bestScore
    · rw [if_pos h35] at h
      obtain ⟨h1, h2⟩ := hinv h35
      have hres := (Option.some.inj h).symm
      rw [hres]
      exact ⟨h1, h2⟩
    · rw [if_neg h35] at h
      exact absurd h (by simp)

lemma process_loop_ts_lb {F : Type} (probe : ℚ → Option (OcrProbe F))
    (ε duration : ℚ) (innerFuel : ℕ) (hts : TsOK probe ε) (hε : 0 ≤ ε)
    (hε10 : ε ≤ 10) :
    ∀ (fuel : ℕ) (ct : ℚ) (rc : ℕ) (ev : RoundEvent F),
      ev ∈ process_loop probe duration innerFuel fuel ct rc →
      ct - 5 - 2 * ε < ev.ts := by
  intro fuel
  induction fuel with
  | zero =>
    intro ct rc ev h
    rw [process_loop] at h
    exact absurd h (List.not_mem_nil ev)
  | succ fuel ih =>
    intro ct rc ev h
    rw [process_loop] at h
    split at h
    · split at h
      · have := ih (ct + 5) rc ev h
        linarith
      · rename_i p hp
        obtain ⟨hts0, htslb, htsub⟩ := hts _ p hp
        split at h
        · split at h
          · rename_i f bts brnd bsc btm hrefine
            dsimp only at h
            rcases List.mem_cons.1 h with rfl | hmem
            · have hlh : max 0 (p.ts - 5) ≤ p.ts := max_le hts0 (by linarith)
              have hb := refine_search_ts_bound probe ε hts innerFuel
                (max 0 (p.ts - 5)) p.ts hlh _ hrefine
              have hmax : p.ts - 5 ≤ max 0 (p.ts - 5) := le_max_right _ _
              have hb1 := hb.1
              dsimp only at hb1 ⊢
              linarith
            · have := ih (p.ts + 60) (rc + 1) ev hmem
              linarith
          · have := ih (p.ts + 60) rc ev h
            linarith
        · have := ih (ct + 5) rc ev h
          linarith
    · exact absurd h (List.not_mem_nil ev)

lemma process_loop_chain {F : Type} (probe : ℚ → Option (OcrProbe F))
    (ε duration : ℚ) (innerFuel : ℕ) (hts : TsOK probe ε) (hε : 0 ≤ ε)
    (hε10 : ε ≤ 10) :
    ∀ (fuel : ℕ) (ct : ℚ) (rc : ℕ),
      List.Chain' (· < ·)
        ((process_loop probe duration innerFuel fuel ct rc).map (fun ev => ev.ts)) := by
  intro fuel
  induction fuel with
  | zero =>
    intro ct rc
    rw [process_loop]
    simp
  | succ fuel ih =>
    intro ct rc
    rw [process_loop]
    split
    · split
      · exact ih _ _
      · rename_i p hp
        obtain ⟨hts0, htslb, htsub⟩ := hts _ p hp
        split
        · split
          · rename_i f bts brnd bsc btm hrefine
            dsimp only
            rw [List.map_cons, List.chain'_cons']
            refine ⟨?_, ih _ _⟩
            intro y hy
            have hy' := List.mem_of_mem_head? hy
            rcases List.mem_map.1 hy' with ⟨ev', hev', rfl⟩
            have hlb := process_loop_ts_lb probe ε duration innerFuel hts hε hε10
              fuel (p.ts + 60) (rc + 1) ev' hev'
            have hlh : max 0 (p.ts - 5) ≤ p.ts := max_le hts0 (by linarith)
            have hb := refine_search_ts_bound probe ε hts innerFuel
              (max 0 (p.ts - 5)) p.ts hlh _ hrefine
            have hb2 := hb.2
            dsimp only at hb2 ⊢
            linarith
          · exact ih _ _
        · exact ih _ _
    · simp

/-- C9: within one run of the locator over one video, the timestamps of the
successively saved RoundEvents are strictly increasing, for every probe
function whose frame timestamps satisfy the extractor's contract
(`0 ≤ ts ≤ t`, `t - ε < ts`, with `0 ≤ ε ≤ 10` covering any frame rate of at
least 0.1 fps): each accepted timestamp is at most the triggering probe's
timestamp, the cursor then jumps 60 s past that probe, and the next
refinement window starts at most 5 s (plus `ε`) before the next trigger. -/
theorem process_video_events_strict_mono {F : Type}
    (probe : ℚ → Option (OcrProbe F)) (ε duration : ℚ) (innerFuel fuel : ℕ)
    (ct : ℚ) (rc : ℕ) (hts : TsOK probe ε) (hε : 0 ≤ ε) (hε10 : ε ≤ 10) :
    List.Chain' (· < ·)
      ((process_loop probe duration innerFuel fuel ct rc).map (fun ev => ev.ts)) :=
  process_loop_chain probe ε duration innerFuel hts hε hε10 fuel ct rc

/-- The probe used by the C9 witness: a video with no readable frames. -/
def c9_probe : ℚ → Option (OcrProbe Unit) := fun _ => none

/-- Witness for C9: the no-frames probe satisfies the timestamp contract with
`ε = 0`, and the locator's event timestamps are strictly increasing. -/
theorem process_video_events_strict_mono_witness :
    List.Chain' (· < ·)
      ((process_loop c9_probe 1 0 3 0 0).map (fun ev => ev.ts)) :=
  process_video_events_strict_mono c9_probe 0 1 0 3 0 0
    (fun t p h => by simp [c9_probe] at h) le_rfl (by norm_num)

/-- The entry `squareform(pdist(...))[i][j]`: the Euclidean distance used by
`FormationAnalyzer.calculate_distance_matrix` (src/formation_analyzer.py:33-42). -/
noncomputable def euclid_dist (p q : ℝ × ℝ) : ℝ :=
  Real.sqrt ((p.1 - q.1) ^ 2 + (p.2 - q.2) ^ 2)

/-- The `rel_pos` step of `FormationAnalyzer.calculate_formation_similarity`
(src/formation_analyzer.py:81-82). -/
noncomputable def relative_positions (ps : List (ℝ × ℝ)) : List (ℝ × ℝ) :=
  ps.map (fun p => (p.1 - (calculate_centroid ps).1, p.2 - (calculate_centroid ps).2))

/-- `FormationAnalyzer.calculate_distance_matrix` (src/formation_analyzer.py:33-42):
`np.zeros((1,1))` for fewer than two positions, otherwise the full symmetric
distance matrix (`squareform(pdist(...))`). -/
noncomputable def calculate_distance_matrix (ps : List (ℝ × ℝ)) : List (List ℝ) :=
  if ps.length < 2 then [[0]]
  else ps.map (fun p => ps.map (fun q => euclid_dist p q))

/-- `np.max(distance_matrix)` (src/formation_analyzer.py:48). Folding `max`
with initial value 0 coincides with the true maximum here because every
distance matrix produced above has nonnegative entries and contains a zero
entry (its diagonal, or the `1×1` zero matrix). -/
def matrix_max (m : List (List ℝ)) : ℝ :=
  m.foldl (fun a row => row.foldl max a) 0

open Classical in
/-- `FormationAnalyzer.normalize_by_max_distance` (src/formation_analyzer.py:44-52). -/
noncomputable def normalize_by_max_distance (m : List (List ℝ)) : List (List ℝ) :=
  if matrix_max m = 0 then m
  else m.map (fun row => row.map (fun x => x / matrix_max m))

/-- `FormationAnalyzer.upper_triangular_vector` (src/formation_analyzer.py:54-63):
the entries `matrix[i][j]` for `i < j < n`, row by row. -/
def upper_triangular_vector (m : List (List ℝ)) : List ℝ :=
  (List.range m.length).flatMap
    (fun i => ((List.range m.length).drop (i + 1)).map (fun j => (m.getD i []).getD j 0))

/-- `np.dot(u, v)` on equal-length vectors. -/
def dot_list (u v : List ℝ) : ℝ :=
  ((u.zip v).map (fun p => p.1 * p.2)).sum

noncomputable def norm_l2 (u : List ℝ) : ℝ := Real.sqrt (dot_list u u)

open Classical in
/-- `scipy.spatial.distance.cosine(u, v) = 1 - u·v/(‖u‖‖v‖)`.  When a vector
has zero norm the float computation divides 0 by 0 and yields IEEE `nan`,
modelled here as `none`; the caller's clamp `max(0.0, min(1.0, 1.0 - nan))`
evaluates to `1.0` in Python, because `min(1.0, nan)` returns its first
argument (`nan < 1.0` is false) and `max(0.0, 1.0) = 1.0`. -/
noncomputable def scipy_cosine (u v : List ℝ) : Option ℝ :=
  if norm_l2 u = 0 ∨ norm_l2 v = 0 then none
  else some (1 - dot_list u v / (norm_l2 u * norm_l2 v))

/-- The `vec` pipeline of `FormationAnalyzer.calculate_formation_similarity`
(src/formation_analyzer.py:76-94): centroid-relative positions, distance
matrix, max-normalization, upper-triangular vector. -/
noncomputable def formation_vector (ps : List (ℝ × ℝ)) : List ℝ :=
  upper_triangular_vector
    (normalize_by_max_distance (calculate_distance_matrix (relative_positions ps)))

open Classical in
/-- `FormationAnalyzer.calculate_formation_similarity`
(src/formation_analyzer.py:65-106). The `none` branch is the IEEE-`nan`
behaviour of the final clamp documented at `scipy_cosine`. -/
noncomputable def calculate_formation_similarity (ps1 ps2 : List (ℝ × ℝ)) : ℝ :=
  if ps1 = [] ∨ ps2 = [] then 0
  else
    let v1 := formation_vector ps1
    let v2 := formation_vector ps2
    if v1.length ≠ v2.length then 0
    else if v1.length = 0 then 1
    else
      match scipy_cosine v1 v2 with
      | none => 1
      | some c => max 0 (min 1 (1 - c))

lemma zip_self_eq_map (v : List ℝ) : v.zip v = v.map (fun x => (x, x)) := by
  induction v with
  | nil => rfl
  | cons x v ih => simp [List.zip_cons_cons, ih]

lemma dot_list_self_eq (v : List ℝ) :
    dot_list v v = (v.map (fun x => x * x)).sum := by
  rw [dot_list, zip_self_eq_map, List.map_map]
  rfl

lemma dot_list_self_nonneg (v : List ℝ) : 0 ≤ dot_list v v := by
  rw [dot_list_self_eq]
  refine List.sum_nonneg ?_
  intro x hx
  rcases List.mem_map.1 hx with ⟨a, _, rfl⟩
  exact mul_self_nonneg a

lemma cosine_clamp_self (v : List ℝ) :
    (match scipy_cosine v v with
     | none => (1 : ℝ)
     | some c => max 0 (min 1 (1 - c))) = 1 := by
  by_cases h : norm_l2 v = 0
  · rw [scipy_cosine, if_pos (Or.inl h)]
  · rw [scipy_cosine, if_neg (by tauto)]
    have hdn : 0 ≤ dot_list v v := dot_list_self_nonneg v
    have hd : dot_list v v ≠ 0 := by
      intro h0
      exact h (by rw [norm_l2, h0, Real.sqrt_zero])
    have hnn : norm_l2 v * norm_l2 v = dot_list v v := Real.mul_self_sqrt hdn
    rw [hnn, div_self hd]
    norm_num

lemma similarity_eq_one_of_vec_eq (ps1 ps2 : List (ℝ × ℝ)) (h1 : ps1 ≠ [])
    (h2 : ps2 ≠ []) (hv : formation_vector ps1 = formation_vector ps2) :
    calculate_formation_similarity ps1 ps2 = 1 := by
  rw [calculate_formation_similarity, if_neg (by tauto)]
  dsimp only
  rw [hv]
  rw [if_neg (by simp)]
  by_cases hz : (formation_vector ps2).length = 0
  · rw [if_pos hz]
  · rw [if_neg hz]
    exact cosine_clamp_self _

lemma list_sum_map_add_const {A : Type} (l : List A) (f : A → ℝ) (c : ℝ) :
    (l.map (fun a => f a + c)).sum = (l.map f).sum + l.length * c := by
  induction l with
  | nil => simp
  | cons x l ih =>
    simp only [List.map_cons, List.sum_cons, ih, List.length_cons]
    push_cast
    ring

lemma centroid_translate (ps : List (ℝ × ℝ)) (hne : ps ≠ []) (dx dy : ℝ) :
    calculate_centroid (ps.map (fun p => (p.1 + dx, p.2 + dy))) =
      ((calculate_centroid ps).1 + dx, (calculate_centroid ps).2 + dy) := by
  have hlen : (0 : ℝ) < ps.length := by
    exact_mod_cast Nat.cast_pos.2 (List.length_pos.2 hne)
  have hlen' : (ps.length : ℝ) ≠ 0 := ne_of_gt hlen
  have hemp : ps.isEmpty = false := by
    simp [List.isEmpty_iff, hne]
  have hemp' : (ps.map (fun p => (p.1 + dx, p.2 + dy))).isEmpty = false := by
    simp [List.isEmpty_iff, hne]
  rw [calculate_centroid, calculate_centroid, hemp, hemp']
  simp only [Bool.false_eq_true, if_false, List.map_map, List.length_map]
  have h1 : (ps.map (Prod.fst ∘ fun p => (p.1 + dx, p.2 + dy))).sum =
      (ps.map Prod.fst).sum + ps.length * dx := by
    rw [show (Prod.fst ∘ fun p : ℝ × ℝ => (p.1 + dx, p.2 + dy)) =
        (fun p : ℝ × ℝ => p.1 + dx) from rfl]
    exact list_sum_map_add_const ps Prod.fst dx
  have h2 : (ps.map (Prod.snd ∘ fun p => (p.1 + dx, p.2 + dy))).sum =
      (ps.map Prod.snd).sum + ps.length * dy := by
    rw [show (Prod.snd ∘ fun p : ℝ × ℝ => (p.1 + dx, p.2 + dy)) =
        (fun p : ℝ × ℝ => p.2 + dy) from rfl]
    exact list_sum_map_add_const ps Prod.snd dy
  rw [h1, h2]
  simp only [Prod.mk.injEq]
  constructor
  · field_simp
    ring
  · field_simp
    ring

lemma relative_positions_translate (ps : List (ℝ × ℝ)) (hne : ps ≠ [])
    (dx dy : ℝ) :
    relative_positions (ps.map (fun p => (p.1 + dx, p.2 + dy))) =
      relative_positions ps := by
  rw [relative_positions, relative_positions, centroid_translate ps hne dx dy,
    List.map_map]
  refine List.map_congr_left ?_
  intro p _
  simp only [Function.comp, Prod.mk.injEq]
  constructor <;> ring

lemma formation_vector_translate (ps : List (ℝ × ℝ)) (hne : ps ≠ [])
    (dx dy : ℝ) :
    formation_vector (ps.map (fun p => (p.1 + dx, p.2 + dy))) =
      formation_vector ps := by
  rw [formation_vector, formation_vector,
    relative_positions_translate ps hne dx dy]

lemma centroid_smul (ps : List (ℝ × ℝ)) (k : ℝ) :
    calculate_centroid (ps.map (fun p => (k * p.1, k * p.2))) =
      (k * (calculate_centroid ps).1, k * (calculate_centroid ps).2) := by
  rcases eq_or_ne ps [] with rfl | hne
  · simp [calculate_centroid]
  · have hemp : ps.isEmpty = false := by
      simp [List.isEmpty_iff, hne]
    have hemp' : (ps.map (fun p => (k * p.1, k * p.2))).isEmpty = false := by
      simp [List.isEmpty_iff, hne]
    rw [calculate_centroid, calculate_centroid, hemp, hemp']
    simp only [Bool.false_eq_true, if_false, List.map_map, List.length_map,
      Prod.mk.injEq]
    have h1 : (ps.map (Prod.fst ∘ fun p => (k * p.1, k * p.2))).sum =
        k * (ps.map Prod.fst).sum := by
      rw [show (Prod.fst ∘ fun p : ℝ × ℝ => (k * p.1, k * p.2)) =
          (fun p : ℝ × ℝ => k * p.1) from rfl]
      exact List.sum_map_mul_left ps Prod.fst k
    have h2 : (ps.map (Prod.snd ∘ fun p => (k * p.1, k * p.2))).sum =
        k * (ps.map Prod.snd).sum := by
      rw [show (Prod.snd ∘ fun p : ℝ × ℝ => (k * p.1, k * p.2)) =
          (fun p : ℝ × ℝ => k * p.2) from rfl]
      exact List.sum_map_mul_left ps Prod.snd k
    rw [h1, h2]
    constructor <;> ring

lemma relative_positions_smul (ps : List (ℝ × ℝ)) (k : ℝ) :
    relative_positions (ps.map (fun p => (k * p.1, k * p.2))) =
      (relative_positions ps).map (fun p => (k * p.1, k * p.2)) := by
  rw [relative_positions, relative_positions, centroid_smul ps k,
    List.map_map, List.map_map]
  refine List.map_congr_left ?_
  intro p _
  simp only [Function.comp, Prod.mk.injEq]
  constructor <;> ring

lemma euclid_dist_smul (p q : ℝ × ℝ) (k : ℝ) (hk : 0 ≤ k) :
    euclid_dist (k * p.1, k * p.2) (k * q.1, k * q.2) = k * euclid_dist p q := by
  rw [euclid_dist, euclid_dist]
  have harg : (k * p.1 - k * q.1) ^ 2 + (k * p.2 - k * q.2) ^ 2 =
      k ^ 2 * ((p.1 - q.1) ^ 2 + (p.2 - q.2) ^ 2) := by ring
  rw [harg, Real.sqrt_mul (sq_nonneg k), Real.sqrt_sq hk]

lemma distance_matrix_smul (l : List (ℝ × ℝ)) (k : ℝ) (hk : 0 ≤ k) :
    calculate_distance_matrix (l.map (fun p => (k * p.1, k * p.2))) =
      (calculate_distance_matrix l).map (fun row => row.map (fun x => k * x)) := by
  rw [calculate_distance_matrix, calculate_distance_matrix, List.length_map]
  by_cases hl : l.length < 2
  · rw [if_pos hl, if_pos hl]
    simp
  · rw [if_neg hl, if_neg hl, List.map_map, List.map_map]
    refine List.map_congr_left ?_
    intro p _
    simp only [Function.comp, List.map_map]
    refine List.map_congr_left ?_
    intro q _
    simp only [Function.comp]
    exact euclid_dist_smul p q k hk

lemma foldl_max_map_mul (k : ℝ) (hk : 0 ≤ k) :
    ∀ (row : List ℝ) (a : ℝ),
      (row.map (fun x => k * x)).foldl max (k * a) = k * row.foldl max a := by
  intro row
  induction row with
  | nil => intro a; simp
  | cons x row ih =>
    intro a
    simp only [List.map_cons, List.foldl_cons]
    have hmm : max (k * a) (k * x) = k * max a x := (mul_max_of_nonneg a x hk).symm
    rw [hmm]
    exact ih (max a x)

lemma foldl_rows_max_map_mul (k : ℝ) (hk : 0 ≤ k) :
    ∀ (m : List (List ℝ)) (a : ℝ),
      (m.map (fun row => row.map (fun x => k * x))).foldl
          (fun a row => row.foldl max a) (k * a) =
        k * m.foldl (fun a row => row.foldl max a) a := by
  intro m
  induction m with
  | nil => intro a; simp
  | cons row m ih =>
    intro a
    simp only [List.map_cons, List.foldl_cons]
    rw [foldl_max_map_mul k hk row a]
    exact ih (row.foldl max a)

lemma matrix_max_smul (m : List (List ℝ)) (k : ℝ) (hk : 0 ≤ k) :
    matrix_max (m.map (fun row => row.map (fun x => k * x))) = k * matrix_max m := by
  have h := foldl_rows_max_map_mul k hk m 0
  rw [mul_zero] at h
  rw [matrix_max, matrix_max]
  exact h

lemma init_le_foldl_max : ∀ (l : List ℝ) (a : ℝ), a ≤ l.foldl max a := by
  intro l
  induction l with
  | nil => intro a; simp
  | cons x l ih =>
    intro a
    simp only [List.foldl_cons]
    exact le_trans (le_max_left a x) (ih (max a x))

lemma mem_le_foldl_max : ∀ (l : List ℝ) (a x : ℝ), x ∈ l → x ≤ l.foldl max a := by
  intro l
  induction l with
  | nil => intro a x hx; exact absurd hx (List.not_mem_nil x)
  | cons y l ih =>
    intro a x hx
    simp only [List.foldl_cons]
    rcases List.mem_cons.1 hx with rfl | hmem
    · exact le_trans (le_max_right a x) (init_le_foldl_max l (max a x))
    · exact ih (max a y) x hmem

lemma init_le_foldl_rows_max :
    ∀ (m : List (List ℝ)) (a : ℝ), a ≤ m.foldl (fun a row => row.foldl max a) a := by
  intro m
  induction m with
  | nil => intro a; simp
  | cons row m ih =>
    intro a
    simp only [List.foldl_cons]
    exact le_trans (init_le_foldl_max row a) (ih (row.foldl max a))

lemma mem_entry_le_foldl_rows :
    ∀ (m : List (List ℝ)) (a : ℝ) (row : List ℝ) (x : ℝ), row ∈ m → x ∈ row →
      x ≤ m.foldl (fun a row => row.foldl max a) a := by
  intro m
  induction m with
  | nil => intro a row x hrow _; exact absurd hrow (List.not_mem_nil row)
  | cons r m ih =>
    intro a row x hrow hx
    simp only [List.foldl_cons]
    rcases List.mem_cons.1 hrow with rfl | hmem
    · exact le_trans (mem_le_foldl_max row a x hx)
        (init_le_foldl_rows_max m (row.foldl max a))
    · exact ih (r.foldl max a) row x hmem hx

lemma entry_le_matrix_max (m : List (List ℝ)) (row : List ℝ) (x : ℝ)
    (hrow : row ∈ m) (hx : x ∈ row) : x ≤ matrix_max m :=
  mem_entry_le_foldl_rows m 0 row x hrow hx

lemma distance_matrix_entries_nonneg (ps : List (ℝ × ℝ)) :
    ∀ row ∈ calculate_distance_matrix ps, ∀ x ∈ row, 0 ≤ x := by
  intro row hrow x hx
  rw [calculate_distance_matrix] at hrow
  by_cases hl : ps.length < 2
  · rw [if_pos hl] at hrow
    have hr : row = [0] := by simpa using hrow
    subst hr
    have : x = 0 := by simpa using hx
    simp [this]
  · rw [if_neg hl] at hrow
    rcases List.mem_map.1 hrow with ⟨p, _, rfl⟩
    rcases List.mem_map.1 hx with ⟨q, _, rfl⟩
    exact Real.sqrt_nonneg _

lemma normalize_map_smul (m : List (List ℝ)) (k : ℝ) (hk : 0 < k)
    (hnn : ∀ row ∈ m, ∀ x ∈ row, 0 ≤ x) :
    normalize_by_max_distance (m.map (fun row => row.map (fun x => k * x))) =
      normalize_by_max_distance m := by
  rw [normalize_by_max_distance, normalize_by_max_distance,
    matrix_max_smul m k (le_of_lt hk)]
  by_cases h0 : matrix_max m = 0
  · rw [h0, mul_zero, if_pos rfl, if_pos rfl]
    have hall0 : ∀ row ∈ m, ∀ x ∈ row, x = 0 := by
      intro row hrow x hx
      have h1 := entry_le_matrix_max m row x hrow hx
      have h2 := hnn row hrow x hx
      rw [h0] at h1
      linarith
    calc m.map (fun row => row.map (fun x => k * x))
        = m.map (fun row => row) := by
          refine List.map_congr_left ?_
          intro row hrow
          refine List.map_congr_left ?_ |>.trans (List.map_id row)
          intro x hx
          rw [hall0 row hrow x hx, mul_zero]
          rfl
      _ = m := List.map_id m
  · have h0' : k * matrix_max m ≠ 0 := mul_ne_zero (ne_of_gt hk) h0
    rw [if_neg h0', if_neg h0, List.map_map]
    refine List.map_congr_left ?_
    intro row _
    simp only [Function.comp, List.map_map]
    refine List.map_congr_left ?_
    intro x _
    simp only [Function.comp]
    exact mul_div_mul_left x (matrix_max m) (ne_of_gt hk)

lemma formation_vector_smul (ps : List (ℝ × ℝ)) (k : ℝ) (hk : 0 < k) :
    formation_vector (ps.map (fun p => (k * p.1, k * p.2))) =
      formation_vector ps := by
  rw [formation_vector, formation_vector, relative_positions_smul ps k,
    distance_matrix_smul (relative_positions ps) k (le_of_lt hk),
    normalize_map_smul _ k hk
      (distance_matrix_entries_nonneg (relative_positions ps))]

/-- The number of strict upper-triangular entries of an `n × n` matrix, as the
source's double loop counts them. -/
def tri (n : ℕ) : ℕ := ((List.range n).map (fun i => n - (i + 1))).sum

lemma nat_sum_map_add_one (l : List ℕ) (f : ℕ → ℕ) :
    (l.map (fun a => f a + 1)).sum = (l.map f).sum + l.length := by
  induction l with
  | nil => simp
  | cons x l ih =>
    simp only [List.map_cons, List.sum_cons, ih, List.length_cons]
    omega

lemma tri_succ (n : ℕ) : tri (n + 1) = tri n + n := by
  rw [tri, List.range_succ, List.map_append, List.sum_append]
  have h1 : ((List.range n).map (fun i => n + 1 - (i + 1))).sum =
      ((List.range n).map (fun i => (n - (i + 1)) + 1)).sum := by
    congr 1
    refine List.map_congr_left ?_
    intro i hi
    have : i < n := List.mem_range.1 hi
    omega
  simp only [h1, nat_sum_map_add_one, List.length_range, List.map_cons,
    List.sum_cons, List.map_nil, List.sum_nil]
  rw [tri]
  omega

lemma tri_strict_mono {n m : ℕ} (hn : 1 ≤ n) (h : n < m) : tri n < tri m := by
  induction m with
  | zero => omega
  | succ m ihm =>
    rw [tri_succ]
    rcases Nat.lt_succ_iff_lt_or_eq.1 h with h' | rfl
    · have hm : 1 ≤ m := by omega
      have := ihm h'
      omega
    · omega

lemma tri_ne_of_ne {n m : ℕ} (hn : 1 ≤ n) (hm : 1 ≤ m) (h : n ≠ m) :
    tri n ≠ tri m := by
  rcases Nat.lt_or_ge n m with hlt | hge
  · exact Nat.ne_of_lt (tri_strict_mono hn hlt)
  · have hlt : m < n := by omega
    exact (Nat.ne_of_lt (tri_strict_mono hm hlt)).symm

lemma upper_triangular_vector_length (m : List (List ℝ)) :
    (upper_triangular_vector m).length = tri m.length := by
  rw [upper_triangular_vector, List.length_flatMap, tri]
  congr 1
  refine List.map_congr_left ?_
  intro i _
  simp [List.length_drop, List.length_range]

lemma normalize_length (m : List (List ℝ)) :
    (normalize_by_max_distance m).length = m.length := by
  rw [normalize_by_max_distance]
  by_cases h : matrix_max m = 0
  · rw [if_pos h]
  · rw [if_neg h, List.length_map]

lemma distance_matrix_length (ps : List (ℝ × ℝ)) (hne : ps ≠ []) :
    (calculate_distance_matrix ps).length = max 1 ps.length := by
  rw [calculate_distance_matrix]
  have h1 : 1 ≤ ps.length := List.length_pos.2 hne
  by_cases hl : ps.length < 2
  · rw [if_pos hl]
    have : ps.length = 1 := by omega
    simp [this]
  · rw [if_neg hl, List.length_map]
    omega

lemma formation_vector_length (ps : List (ℝ × ℝ)) (hne : ps ≠ []) :
    (formation_vector ps).length = tri ps.length := by
  have hrel : relative_positions ps ≠ [] := by
    rw [relative_positions]
    simpa using hne
  have h1 : 1 ≤ ps.length := List.length_pos.2 hne
  rw [formation_vector, upper_triangular_vector_length, normalize_length,
    distance_matrix_length _ hrel]
  rw [relative_positions, List.length_map]
  have : max 1 ps.length = ps.length := by omega
  rw [this]

/-- C2: for every nonempty position list `P`, the formation similarity of `P`
with itself, with any translate of `P`, and with any positive scaling of `P`
is exactly `1.0` (the nan corner of identical points included, per the Python
clamp semantics documented at `scipy_cosine`); and against any position list
with a different member count the similarity is `0.0`. -/
theorem formation_similarity_invariance (P : List (ℝ × ℝ)) (hne : P ≠ []) :
    calculate_formation_similarity P P = 1 ∧
    (∀ dx dy : ℝ,
      calculate_formation_similarity P (P.map (fun p => (p.1 + dx, p.2 + dy))) = 1) ∧
    (∀ k : ℝ, 0 < k →
      calculate_formation_similarity P (P.map (fun p => (k * p.1, k * p.2))) = 1) ∧
    (∀ Q : List (ℝ × ℝ), Q.length ≠ P.length →
      calculate_formation_similarity P Q = 0) := by
  have hmapne : ∀ (f : ℝ × ℝ → ℝ × ℝ), P.map f ≠ [] := by
    intro f
    simpa using hne
  refine ⟨?_, ?_, ?_, ?_⟩
  · exact similarity_eq_one_of_vec_eq P P hne hne rfl
  · intro dx dy
    exact similarity_eq_one_of_vec_eq P _ hne (hmapne _)
      (formation_vector_translate P hne dx dy).symm
  · intro k hk
    exact similarity_eq_one_of_vec_eq P _ hne (hmapne _)
      (formation_vector_smul P k hk).symm
  · intro Q hQ
    rcases eq_or_ne Q [] with rfl | hQne
    · rw [calculate_formation_similarity, if_pos (Or.inr rfl)]
    · rw [calculate_formation_similarity, if_neg (by tauto)]
      dsimp only
      have hlen : (formation_vector P).length ≠ (formation_vector Q).length := by
        rw [formation_vector_length P hne, formation_vector_length Q hQne]
        exact fun h => (tri_ne_of_ne (List.length_pos.2 hQne)
          (List.length_pos.2 hne) hQ) h.symm
      rw [if_pos hlen]

/-- Witness for C2: the singleton formation `[(0, 0)]`, its translate by
`(1, 2)`, its scaling by `2`, and the empty list as a different-size set. -/
theorem formation_similarity_invariance_witness :
    calculate_formation_similarity [((0 : ℝ), (0 : ℝ))] [((0 : ℝ), (0 : ℝ))] = 1 ∧
    calculate_formation_similarity [((0 : ℝ), (0 : ℝ))]
      ([((0 : ℝ), (0 : ℝ))].map (fun p => (p.1 + 1, p.2 + 2))) = 1 ∧
    calculate_formation_similarity [((0 : ℝ), (0 : ℝ))]
      ([((0 : ℝ), (0 : ℝ))].map (fun p => (2 * p.1, 2 * p.2))) = 1 ∧
    calculate_formation_similarity [((0 : ℝ), (0 : ℝ))] [] = 0 :=
  ⟨(formation_similarity_invariance [((0 : ℝ), (0 : ℝ))] (by simp)).1,
    (formation_similarity_invariance [((0 : ℝ), (0 : ℝ))] (by simp)).2.1 1 2,
    (formation_similarity_invariance [((0 : ℝ), (0 : ℝ))] (by simp)).2.2.1 2
      (by norm_num),
    (formation_similarity_invariance [((0 : ℝ), (0 : ℝ))] (by simp)).2.2.2 []
      (by simp)⟩
